import Mathlib

/-
Verification of the Random-Movie-Recommender core against its specification.

This file gives a shallow embedding, in Lean 4, of the parts of the program
that the checked claims are about:

  * the per-query JSON cache        (src/storage.py),
  * the aggregator dedup pass       (main.py, load_or_fetch),
  * the manual retry loop           (src/api_client.py, ApiClient._perform_request),
  * preference merging/validation   (src/preferences.py),
  * scoring and sampling            (src/recommenders.py).

Modelling conventions:
  * Python floats are modelled as exact rationals (ℚ); numeric literals such
    as 0.2 or 0.3 are read as the rationals 1/5 and 3/10.
  * math.exp, which is transcendental, is kept as an explicit function
    parameter `e : ℚ → ℚ`; theorems quantify over it, so they hold in
    particular for the real exponential.
  * random.Random(seed) is modelled as a record of draw oracles; universally
    quantified theorems hold for every oracle, hence for the Mersenne
    Twister in particular.  Determinism claims use the fact that the
    generator is a pure function of the seed and nothing else.
  * Python dicts carrying movie data are restricted to typed records with
    optional fields; "key absent" and "value non-coercible" both map to
    `none`, exactly the collapses performed by sanitize_movies itself.
  * The filesystem seen by storage.py is an explicit association list from
    cache paths to (payload, mtime) pairs, and wall-clock time is an
    explicit rational parameter.  The sha1 query hash is modelled by the
    canonical sorted-key serialization it is computed from (i.e. hashing is
    assumed collision-free).
-/

namespace MovieRec

/-! ## Generic helpers -/

/-- Clamp a rational into the interval from lo to hi, as Python
max(lo, min(hi, x)). -/
def clampQ (lo hi x : ℚ) : ℚ := max lo (min hi x)

/-- Stable insertion into a list that is already ordered by the Boolean
predicate le: x is placed before the first y with le x y.  Together with
sortBy this is a stable sort, the model of Python sorted(). -/
def insertBy (le : α → α → Bool) (x : α) : List α → List α
  | [] => [x]
  | y :: ys => if le x y then x :: y :: ys else y :: insertBy le x ys

/-- Stable sort by the Boolean predicate le; model of Python sorted(),
which is stable.  For a descending sort by score, le a b is b.2 ≤ a.2. -/
def sortBy (le : α → α → Bool) : List α → List α
  | [] => []
  | x :: xs => insertBy le x (sortBy le xs)

/-! ## Cache store (src/storage.py)

The JSON values stored in cache files. -/

/-- JSON trees, the payloads handled by save_json / load_json. -/
inductive Jx where
  | null : Jx
  | bool : Bool → Jx
  | num : ℚ → Jx
  | str : String → Jx
  | arr : List Jx → Jx
  | obj : List (String × Jx) → Jx

/-- A cache file on disk: the parsed JSON payload together with the file
modification time (seconds, rational). -/
structure CacheFile where
  payload : Jx
  mtime : ℚ

/-- The cache directory: an association list from cache paths to files.
A fresh write is modelled by prepending; lookup finds the newest entry,
which models shutil.move overwriting the destination. -/
def Fs := List (String × CacheFile)

/-- Lookup of a path in the modelled filesystem (Path.exists + read). -/
def fsFind : List (String × CacheFile) → String → Option CacheFile
  | [], _ => none
  | (k, f) :: rest, p => if k = p then some f else fsFind rest p

/-- Embedding of _make_hash_for_params / make_cache_path_for_query
(src/storage.py lines 124-146): the cache path is determined by the
sorted-key canonical serialization of the query params.  The sha1 digest is
modelled by the serialized string itself (collision-free hashing). -/
def canonicalKey (params : List (String × String)) : String :=
  String.intercalate "&"
    ((sortBy (fun a b => decide (a.1 ≤ b.1)) params).map (fun p => p.1 ++ "=" ++ p.2))

/-- Embedding of save_json_for_query (src/storage.py lines 148-157):
atomically overwrite the cache file for params with payload; the new file
has modification time now. -/
def saveJsonForQuery (fs : List (String × CacheFile)) (params : List (String × String))
    (payload : Jx) (now : ℚ) : List (String × CacheFile) :=
  (canonicalKey params, ⟨payload, now⟩) :: fs

/-- Embedding of is_cache_expired (src/storage.py lines 110-122): a missing
file counts as expired, otherwise the file is expired when its age exceeds
ttl seconds (strictly). -/
def isCacheExpired (fs : List (String × CacheFile)) (path : String)
    (ttl : Int) (now : ℚ) : Bool :=
  match fsFind fs path with
  | none => true
  | some f => decide ((ttl : ℚ) < now - f.mtime)

/-- Embedding of load_json_for_query (src/storage.py lines 159-178): a
missing file yields none; the expiry check runs only when a ttl is given
and it is nonnegative; otherwise the stored payload is returned as is. -/
def loadJsonForQuery (fs : List (String × CacheFile)) (params : List (String × String))
    (ttl : Option Int) (now : ℚ) : Option Jx :=
  let path := canonicalKey params
  match fsFind fs path with
  | none => none
  | some f =>
    match ttl with
    | some t =>
      if 0 ≤ t then
        if isCacheExpired fs path t now then none else some f.payload
      else some f.payload
    | none => some f.payload

/-! ## Candidate aggregator dedup (main.py, load_or_fetch lines 228-248) -/

/-- A raw record as it appears in the merged partition results: the fields
the dedup pass reads.  A Python id that is absent is none; per the data
model ids are integers. -/
structure AggRec where
  aggId : Option Int
  aggTitle : Option String
  aggDate : Option String
deriving DecidableEq

/-- Dedup key of a record: the id when present, otherwise the
title-plus-release-date string key built by load_or_fetch.  In Python the
two kinds live in one set; an int and a str are never equal there, which
the sum type mirrors. -/
def aggKey (r : AggRec) : Int ⊕ String :=
  match r.aggId with
  | some i => Sum.inl i
  | none => Sum.inr ((r.aggTitle.getD "") ++ "|" ++ (r.aggDate.getD ""))

/-- Membership of a dedup key in the seen set. -/
def keyMem (k : Int ⊕ String) (seen : List (Int ⊕ String)) : Bool :=
  seen.any (fun x => decide (x = k))

/-- Worker for the dedup loop: seen is the set of keys already emitted. -/
def dedupGo (seen : List (Int ⊕ String)) : List AggRec → List AggRec
  | [] => []
  | r :: rest =>
    if keyMem (aggKey r) seen then dedupGo seen rest
    else r :: dedupGo (aggKey r :: seen) rest

/-- Embedding of the dedup pass of load_or_fetch (main.py lines 228-248):
keep the first record for each key, in first-seen order. -/
def dedupMovies (l : List AggRec) : List AggRec := dedupGo [] l

/-! ## Resilient fetcher: manual retry loop
(src/api_client.py, ApiClient._perform_request lines 185-261) -/

/-- Outcome of one network attempt: a raised exception, or a response with
a status code and an optional parsed Retry-After header. -/
inductive AttemptOutcome where
  | exc : AttemptOutcome
  | resp : Int → Option Int → AttemptOutcome
deriving DecidableEq

/-- The structured result dict of _perform_request, restricted to the
fields the claims are about. -/
structure FetchRes where
  success : Bool
  status_code : Option Int
deriving DecidableEq

/-- Full outcome of the manual-retry request: the returned dict or the
raised ApiError, the number of attempts performed, the retries metric, and
the sleep delays taken between attempts. -/
structure PerformOutcome where
  result : Except String FetchRes
  attempts : Nat
  retries : Nat
  sleeps : List ℚ

/-- True when the call raised (ApiError) rather than returning a dict. -/
def isErrorResult : Except String FetchRes → Bool
  | Except.error _ => true
  | Except.ok _ => false

/-- Embedding of the exponential backoff with jitter
(src/api_client.py lines 197-199 and 242-244):
backoff = min(max_backoff, backoff_base * 2 ** (attempts - 1)), and the
jitter random.uniform(0, backoff * 0.2) is modelled as u * (backoff * 1/5)
with the uniform sample u taken in the unit interval. -/
def computeBackoff (base maxb : ℚ) (attemptNo : Nat) (u : ℚ) : ℚ :=
  let b := min maxb (base * 2 ^ (attemptNo - 1))
  b + u * (b * (1 / 5))

/-- Embedding of the sleep-time computation before a retry of a 429/5xx
response (src/api_client.py lines 233-244): a positive Retry-After header
is honored but capped at max_backoff and takes no jitter; otherwise the
exponential backoff with jitter is used. -/
def computeSleep (base maxb : ℚ) (attemptNo : Nat) (retryAfter : Option Int) (u : ℚ) : ℚ :=
  match retryAfter with
  | some ra => if 0 < ra then min maxb (ra : ℚ) else computeBackoff base maxb attemptNo u
  | none => computeBackoff base maxb attemptNo u

/-- One-step worker of the manual retry while-loop
(src/api_client.py lines 186-261).  fuel is the number of loop iterations
still allowed by the while-guard attempts < max_attempts; attempts,
retries and sleeps accumulate the loop state.  script gives the outcome of
the k-th attempt and u the jitter sample of the k-th attempt. -/
def performGo (script : Nat → AttemptOutcome) (u : Nat → ℚ) (base maxb : ℚ)
    (raiseOnFailure : Bool) (maxAttempts : Nat) :
    Nat → Nat → Nat → List ℚ → PerformOutcome
  | 0, attempts, retries, sleeps =>
    -- unreachable: every loop body path returns or still has attempts left
    ⟨Except.error "loop exhausted", attempts, retries, sleeps⟩
  | fuel + 1, attempts, retries, sleeps =>
    let a := attempts + 1
    match script a with
    | AttemptOutcome.exc =>
      if a < maxAttempts then
        performGo script u base maxb raiseOnFailure maxAttempts fuel a (retries + 1)
          (sleeps ++ [computeBackoff base maxb a (u a)])
      else
        ⟨if raiseOnFailure then Except.error "ApiError: network failure"
          else Except.ok ⟨false, none⟩, a, retries, sleeps⟩
    | AttemptOutcome.resp status ra =>
      if 200 ≤ status ∧ status < 300 then
        ⟨Except.ok ⟨true, some status⟩, a, retries, sleeps⟩
      else if status = 429 ∨ (500 ≤ status ∧ status < 600) then
        if a < maxAttempts then
          performGo script u base maxb raiseOnFailure maxAttempts fuel a (retries + 1)
            (sleeps ++ [computeSleep base maxb a ra (u a)])
        else
          ⟨if raiseOnFailure then Except.error "ApiError: HTTP failure"
            else Except.ok ⟨false, some status⟩, a, retries, sleeps⟩
      else
        -- non-retryable failure: returned as a dict, never raised here
        ⟨Except.ok ⟨false, some status⟩, a, retries, sleeps⟩

/-- Embedding of the manual-retry branch of ApiClient._perform_request
(src/api_client.py lines 185-261): at most max(1, max_retries + 1) total
attempts are made. -/
def performRequestManual (script : Nat → AttemptOutcome) (u : Nat → ℚ)
    (maxRetries : Nat) (base maxb : ℚ) (raiseOnFailure : Bool) : PerformOutcome :=
  let maxAttempts := max 1 (maxRetries + 1)
  performGo script u base maxb raiseOnFailure maxAttempts maxAttempts 0 0 []

/-! ## Preferences (src/preferences.py)

validate_preferences starts from DEFAULT_PREFERENCES and copies over only
the keys it knows: weights (popularity/rating/freshness), temperature,
temporal_balance, temporal_balance_strength, diversify_by,
max_items_per_genre.  Keys such as preferred_genres, exclude_genres,
exclude_adult, min_vote_count, recency_years and weights.genre_boost are
dropped, so downstream they always take their hard defaults. -/

/-- Diversity mode: the values of diversify_by the code distinguishes.
Any other Python value behaves like nodiv in recommend_batch. -/
inductive DivChoice where
  | genre : DivChoice
  | year : DivChoice
  | director : DivChoice
  | nodiv : DivChoice
deriving DecidableEq

/-- A caller-supplied preference mapping, restricted to the keys that
survive validate_preferences; an absent key is none. -/
structure PrefsOverride where
  wPop : Option ℚ
  wRat : Option ℚ
  wFre : Option ℚ
  temperature : Option ℚ
  temporalBalance : Option Bool
  tbStrength : Option ℚ
  diversifyBy : Option DivChoice
  maxItemsPerGenre : Option Int

/-- The empty override: no caller preferences. -/
def noOverride : PrefsOverride := ⟨none, none, none, none, none, none, none, none⟩

/-- The merged (defaults overridden field-by-field, weights key-by-key)
preference mapping before validation; mirrors get_effective_preferences
(src/preferences.py lines 121-138) with DEFAULT_PREFERENCES
(lines 10-21) as the base, i.e. with no preferences file on disk. -/
structure MergedPrefs where
  wPop : ℚ
  wRat : ℚ
  wFre : ℚ
  temperature : ℚ
  temporalBalance : Bool
  tbStrength : ℚ
  diversifyBy : DivChoice
  maxItemsPerGenre : Int

/-- Validated effective preferences: exactly the keys validate_preferences
emits. -/
structure EffPrefs where
  wPop : ℚ
  wRat : ℚ
  wFre : ℚ
  temperature : ℚ
  temporalBalance : Bool
  tbStrength : ℚ
  diversifyBy : DivChoice
  maxItemsPerGenre : Int
deriving DecidableEq

/-- Merge the caller override over DEFAULT_PREFERENCES
(src/preferences.py lines 10-21 and 128-136): weights merge key-by-key,
other keys are replaced wholesale. -/
def mergeDefaults (ov : PrefsOverride) : MergedPrefs where
  wPop := ov.wPop.getD (3 / 10)
  wRat := ov.wRat.getD (3 / 10)
  wFre := ov.wFre.getD (2 / 5)
  temperature := ov.temperature.getD 3
  temporalBalance := ov.temporalBalance.getD true
  tbStrength := ov.tbStrength.getD (3 / 2)
  diversifyBy := (ov.diversifyBy.getD DivChoice.genre)
  maxItemsPerGenre := ov.maxItemsPerGenre.getD 2

/-- Embedding of validate_preferences (src/preferences.py lines 79-119):
each weight is clamped into the unit interval, then, when their sum is
positive, the weights are divided by that sum so that they sum to 1;
temperature is clamped into 0..10, temporal_balance_strength into 0..5,
max_items_per_genre into 1..10. -/
def validatePrefs (p : MergedPrefs) : EffPrefs :=
  let cP := clampQ 0 1 p.wPop
  let cR := clampQ 0 1 p.wRat
  let cF := clampQ 0 1 p.wFre
  let total := cP + cR + cF
  { wPop := if 0 < total then cP / total else cP
    wRat := if 0 < total then cR / total else cR
    wFre := if 0 < total then cF / total else cF
    temperature := clampQ 0 10 p.temperature
    temporalBalance := p.temporalBalance
    tbStrength := clampQ 0 5 p.tbStrength
    diversifyBy := p.diversifyBy
    maxItemsPerGenre := max 1 (min 10 p.maxItemsPerGenre) }

/-- Embedding of get_effective_preferences (src/preferences.py lines
121-138) with no preferences file on disk: merge the override over the
defaults, then validate. -/
def getEffectivePrefs (ov : PrefsOverride) : EffPrefs :=
  validatePrefs (mergeDefaults ov)

/-- Re-package effective preferences as the full mapping they are for the
inner score_movies call (pick_random_movie and recommend_batch pass their
already-effective preferences down as the preferences argument). -/
def toOverride (p : EffPrefs) : PrefsOverride :=
  ⟨some p.wPop, some p.wRat, some p.wFre, some p.temperature,
    some p.temporalBalance, some p.tbStrength, some p.diversifyBy,
    some p.maxItemsPerGenre⟩

/-! ## Movie records and sanitization (src/recommenders.py lines 11-83) -/

/-- A raw movie dict as fed to the recommenders, restricted to the typed
fields sanitize_movies reads; an absent or non-coercible field is none. -/
structure RawMovie where
  mid : Option Int
  title : Option String
  name : Option String
  original_title : Option String
  overview : Option String
  release_date : Option String
  first_air_date : Option String
  vote_average : Option ℚ
  vote_count : Option Int
  popularity : Option ℚ
  adult : Option Bool
  genre_ids : List Int
deriving DecidableEq

/-- A sanitized movie: the output record of sanitize_movies (lines 67-81),
restricted to the fields read downstream. -/
structure Movie where
  mid : Int
  title : String
  overview : String
  release_date : String
  vote_average : Option ℚ
  vote_count : Int
  popularity : ℚ
  adult : Bool
  genre_ids : List Int
deriving DecidableEq

/-- A placeholder movie for index lookups that are proved in range. -/
def dummyMovie : Movie := ⟨0, "", "", "", none, 0, 0, false, []⟩

/-- Python falsy-or chain over optional strings: the first value that is
present and non-empty, else the empty string. -/
def firstTruthy : List (Option String) → String
  | [] => ""
  | some s :: rest => if s = "" then firstTruthy rest else s
  | none :: rest => firstTruthy rest

/-- Characters Python str.strip removes. -/
def isPySpace (c : Char) : Bool :=
  c = ' ' ∨ c = '\t' ∨ c = '\n' ∨ c = '\r' ∨ c = '\x0b' ∨ c = '\x0c'

/-- Model of Python str.strip over the character list (structural, so it
evaluates inside the kernel). -/
def strTrim (s : String) : String :=
  ⟨((s.data.dropWhile isPySpace).reverse.dropWhile isPySpace).reverse⟩

/-- Model of the Python slice s[:n] over the character list. -/
def strTake (n : Nat) (s : String) : String := ⟨s.data.take n⟩

/-- Worker of sanitize_movies: seen is the set of ids already emitted. -/
def sanitizeGo (seen : List Int) : List RawMovie → List Movie
  | [] => []
  | item :: rest =>
    match item.mid with
    | none => sanitizeGo seen rest
    | some mid =>
      if mid ∈ seen then sanitizeGo seen rest
      else
        let t0 := strTrim (firstTruthy [item.title, item.name, item.original_title])
        { mid := mid
          title := if t0 = "" then "Untitled (" ++ toString mid ++ ")" else t0
          overview := item.overview.getD ""
          release_date := firstTruthy [item.release_date, item.first_air_date]
          vote_average := item.vote_average
          vote_count := item.vote_count.getD 0
          popularity := item.popularity.getD 0
          adult := item.adult.getD false
          genre_ids := item.genre_ids } :: sanitizeGo (mid :: seen) rest

/-- Embedding of sanitize_movies (src/recommenders.py lines 11-83): drop
records without a coercible integer id, dedup by id keeping the first
record, coerce and default the remaining fields. -/
def sanitizeMovies (movies : List RawMovie) : List Movie := sanitizeGo [] movies

/-! ## Scoring (src/recommenders.py lines 85-192) -/

/-- Embedding of _normalize (lines 85-91): min-max normalization; when all
values are equal every value maps to 1. -/
def normalizeQ (values : List ℚ) : List ℚ :=
  match values with
  | [] => []
  | v :: vs =>
    let mn := vs.foldl min v
    let mx := vs.foldl max v
    if mx ≤ mn then values.map (fun _ => 1)
    else values.map (fun x => (x - mn) / (mx - mn))

/-- Release-year parse of _recency_score (lines 97-102): empty date or a
non-integer first dash-component yields no year. -/
def parseYear (rd : String) : Option Int :=
  if rd = "" then none else ((rd.splitOn "-").headD "").toInt?

/-- Embedding of _recency_score (lines 93-108) with the effective
max_years = 10 (validate_preferences drops recency_years, so score_movies
always reads the default 10).  e stands for math.exp. -/
def recencyScore (e : ℚ → ℚ) (curYear : Int) (rd : String) : ℚ :=
  match parseYear rd with
  | none => 0
  | some y =>
    let age : Int := max 0 (curYear - y)
    let tau : ℚ := max 1 (10 / 2)
    e (-((age : ℚ) / tau))

/-- Candidates surviving the filter pass of score_movies (lines 140-152)
with the effective preferences validate_preferences can produce:
exclude_adult is always true, min_vote_count 0 (falsy, so no vote filter),
exclude_genres and preferred_genres always empty.  Hence only the adult
filter remains. -/
def filteredCandidates (movies : List RawMovie) : List Movie :=
  (sanitizeMovies movies).filter (fun m => !m.adult)

/-- The normalized rating signal of score_movies (lines 155 and 159):
an absent vote_average enters the Python expression
float(m.get("vote_average") or 0.0) as the raw value 0.0. -/
def ratingSignals (movies : List RawMovie) : List ℚ :=
  normalizeQ ((filteredCandidates movies).map (fun m => m.vote_average.getD 0))

/-- The normalized popularity signal (lines 154 and 158). -/
def popSignals (movies : List RawMovie) : List ℚ :=
  normalizeQ ((filteredCandidates movies).map (fun m => m.popularity))

/-- The normalized recency signal (lines 156 and 160). -/
def recSignals (e : ℚ → ℚ) (curYear : Int) (movies : List RawMovie) : List ℚ :=
  normalizeQ ((filteredCandidates movies).map (fun m => recencyScore e curYear m.release_date))

/-- The weighted-sum loop of score_movies (lines 162-171): zip the
candidates with the three normalized signals and take
w_pop * npop + w_rating * nrat + w_fresh * nrec.  The genre-boost branch
(lines 166-170) is dead through this path: validate_preferences never
emits preferred_genres, so the boost condition is always false. -/
def weightedScores (wP wR wF : ℚ) :
    List Movie → List ℚ → List ℚ → List ℚ → List (Movie × ℚ)
  | m :: ms, p :: ps, r :: rs, c :: cs =>
    (m, wP * p + wR * r + wF * c) :: weightedScores wP wR wF ms ps rs cs
  | _, _, _, _ => []

/-- The list of base scores (movie paired with the pre-balance weighted
sum) computed by score_movies for a caller override. -/
def baseScored (e : ℚ → ℚ) (ov : PrefsOverride) (curYear : Int)
    (movies : List RawMovie) : List (Movie × ℚ) :=
  let prefs := getEffectivePrefs ov
  weightedScores prefs.wPop prefs.wRat prefs.wFre (filteredCandidates movies)
    (popSignals movies) (ratingSignals movies) (recSignals e curYear movies)

/-- Base scores as the spec words them for claim C3: the weighted sum of
the three normalized signals with the weights used exactly as given by
the caller, not re-normalized.  This definition follows the claim, not
the source, and is compared against baseScored. -/
def specBaseScores (e : ℚ → ℚ) (wP wR wF : ℚ) (curYear : Int)
    (movies : List RawMovie) : List (Movie × ℚ) :=
  weightedScores wP wR wF (filteredCandidates movies)
    (popSignals movies) (ratingSignals movies) (recSignals e curYear movies)

/-- Release-year key of the temporal-balance pass: the first four
characters of the release date. -/
def yearKey (m : Movie) : String := strTake 4 m.release_date

/-- Number of scored candidates sharing a year key (lines 176-179). -/
def yearCnt (scored : List (Movie × ℚ)) (y : String) : Nat :=
  (scored.filter (fun p => yearKey p.1 == y)).length

/-- Embedding of the temporal-balance pass (lines 173-189): when enabled
and the scored list is non-empty, multiply each score by the penalty
1 / (1 + strength * ((cnt - 1) / max(1, max_count))). -/
def temporalAdjust (prefs : EffPrefs) (scored : List (Movie × ℚ)) : List (Movie × ℚ) :=
  if prefs.temporalBalance = false then scored
  else
    match scored with
    | [] => scored
    | _ =>
      let maxCount := (scored.map (fun p => yearCnt scored (yearKey p.1))).foldl max 0
      scored.map (fun p =>
        let c := yearCnt scored (yearKey p.1)
        (p.1, p.2 * (1 / (1 + prefs.tbStrength * (((c : ℚ) - 1) / ((max 1 maxCount : Nat) : ℚ))))))

/-- Embedding of score_movies (src/recommenders.py lines 110-192) for a
caller override ov: merge and validate preferences, sanitize and filter,
compute the weighted normalized signals, apply temporal balancing, and
stably sort by score in descending order. -/
def scoreMovies (e : ℚ → ℚ) (ov : PrefsOverride) (curYear : Int)
    (movies : List RawMovie) : List (Movie × ℚ) :=
  let prefs := getEffectivePrefs ov
  if (filteredCandidates movies).isEmpty then []
  else
    sortBy (fun a b => decide (b.2 ≤ a.2))
      (temporalAdjust prefs (baseScored e ov curYear movies))

/-! ## Sampler (src/recommenders.py lines 194-340)

Random draws are modelled by oracles: each field returns the index the
generator would pick.  Indexing is wrapped with a modulus by the list
length, which is the identity for the indices an actual generator
returns.  Universally quantified theorems therefore cover every possible
behaviour of random.Random, and a generator built from a seed is a pure
function of that seed. -/

/-- Draw oracles standing in for one random.Random instance. -/
structure Rng where
  softmaxPick : List ℚ → Nat
  uniformPick : Nat → Nat
  poolPick : Nat → List Nat → List ℚ → Nat

/-- A concrete generator for a seed: random.Random(seed) is a pure
function of the seed, which is all the determinism claims rely on. -/
def rngOfSeed (seed : Int) : Rng :=
  ⟨fun _ => seed.natAbs, fun _ => seed.natAbs, fun _ _ _ => seed.natAbs⟩

/-- The scored list pick_random_movie and recommend_batch work on: both
compute effective preferences first and pass them down to score_movies as
the preferences argument (lines 202-205 and 241-263). -/
def pickScored (e : ℚ → ℚ) (ov : PrefsOverride) (curYear : Int)
    (movies : List RawMovie) : List (Movie × ℚ) :=
  scoreMovies e (toOverride (getEffectivePrefs ov)) curYear movies

/-- Embedding of pick_random_movie (src/recommenders.py lines 194-225):
empty scoring yields none; a positive score total takes the
temperature-scaled softmax draw; otherwise the draw is a uniform choice
among the first min(10, len) scored movies. -/
def pickRandomMovie (e : ℚ → ℚ) (rng : Rng) (ov : PrefsOverride) (curYear : Int)
    (movies : List RawMovie) : Option Movie :=
  let prefs := getEffectivePrefs ov
  match pickScored e ov curYear movies with
  | [] => none
  | p :: rest =>
    let ms := (p :: rest).map Prod.fst
    let ss := (p :: rest).map Prod.snd
    let total := ss.foldl (· + ·) 0
    if 0 < total then
      let temp := if prefs.temperature ≤ 0 then 1 else prefs.temperature
      let mx := ss.foldl max p.2
      let ws := ss.map (fun s => e ((s - mx) / temp))
      let tot := ws.foldl (· + ·) 0
      let probs := ws.map (fun w => w / tot)
      some (ms.getD (rng.softmaxPick probs % ms.length) p.1)
    else
      let topk := ms.take 10
      some (topk.getD (rng.uniformPick topk.length % topk.length) p.1)

/-- Embedding of the exclude-ids filter with fallback of recommend_batch
(src/recommenders.py lines 247-261): an empty exclude set is falsy and
skips the filter; records whose id key maps to none are kept; if fewer
than max(n, 10) movies survive, the original list is used instead. -/
def excludeFilter (movies : List RawMovie) (n : Int) (excl : List Int) : List RawMovie :=
  if excl.isEmpty then movies
  else
    let filtered := movies.filter (fun r =>
      match r.mid with
      | some i => !(excl.contains i)
      | none => true)
    if (filtered.length : Int) < max n 10 then movies else filtered

/-- Per-key counters (collections.defaultdict of int): an absent key
counts 0. -/
def cntOf [BEq κ] (l : List (κ × Nat)) (k : κ) : Nat := (l.lookup k).getD 0

/-- Increment a per-key counter. -/
def bump [BEq κ] : List (κ × Nat) → κ → List (κ × Nat)
  | [], k => [(k, 1)]
  | (a, c) :: rest, k =>
    if a == k then (a, c + 1) :: rest else (a, c) :: bump rest k

/-- The mutable state of the recommend_batch selection loop. -/
structure BState where
  chosen : List Movie
  genreCounts : List (Int × Nat)
  yearCounts : List (String × Nat)
  idxPool : List Nat
  attempts : Nat

/-- Embedding of the while-loop of recommend_batch (src/recommenders.py
lines 283-330).  The while-guard attempts < len(items) * 2 is realized by
the fuel argument, which starts at 2 * items.length and decreases once per
iteration exactly as attempts increases; an empty index pool makes the
draw raise, which the code turns into a break. -/
def batchLoop (rng : Rng) (n : Int) (items : List Movie) (scores : List ℚ)
    (divBy : DivChoice) (maxPerGenre : Int) : Nat → BState → BState
  | 0, st => st
  | fuel + 1, st =>
    if (st.chosen.length : Int) < n then
      let a := st.attempts + 1
      if st.idxPool.isEmpty then { st with attempts := a }
      else
        let pool := st.idxPool
        let ws := pool.map (fun j => max (1 / 1000) (scores.getD j 0))
        let i := pool.getD (rng.poolPick a pool ws % pool.length) (pool.headD 0)
        let cand := items.getD i dummyMovie
        match divBy with
        | DivChoice.genre =>
          let skip := cand.genre_ids.any (fun g => decide ((maxPerGenre : Int) ≤ (cntOf st.genreCounts g : Int)))
          if skip && decide ((st.chosen.length : Int) < n - 1) && decide (a < items.length) then
            batchLoop rng n items scores divBy maxPerGenre fuel
              { st with attempts := a, idxPool := pool.erase i }
          else
            batchLoop rng n items scores divBy maxPerGenre fuel
              { chosen := st.chosen ++ [cand]
                genreCounts := cand.genre_ids.foldl bump st.genreCounts
                yearCounts := st.yearCounts
                idxPool := pool.erase i
                attempts := a }
        | DivChoice.year =>
          let y := strTake 4 cand.release_date
          if (!(y == "")) && decide (2 ≤ cntOf st.yearCounts y)
              && decide ((st.chosen.length : Int) < n - 1) && decide (a < items.length) then
            batchLoop rng n items scores divBy maxPerGenre fuel
              { st with attempts := a, idxPool := pool.erase i }
          else
            batchLoop rng n items scores divBy maxPerGenre fuel
              { chosen := st.chosen ++ [cand]
                genreCounts := st.genreCounts
                yearCounts := if y == "" then st.yearCounts else bump st.yearCounts y
                idxPool := pool.erase i
                attempts := a }
        | _ =>
          batchLoop rng n items scores divBy maxPerGenre fuel
            { chosen := st.chosen ++ [cand]
              genreCounts := st.genreCounts
              yearCounts := st.yearCounts
              idxPool := pool.erase i
              attempts := a }
    else st

/-- Embedding of the final padding pass of recommend_batch (lines
332-338): walk items in score order, append any movie not yet chosen, and
stop as soon as n are collected. -/
def padFill (n : Int) : List Movie → List Movie → List Movie
  | [], chosen => chosen
  | it :: rest, chosen =>
    let chosen' := if it ∈ chosen then chosen else chosen ++ [it]
    if n ≤ (chosen'.length : Int) then chosen' else padFill n rest chosen'

/-- Embedding of recommend_batch (src/recommenders.py lines 227-340). -/
def recommendBatch (e : ℚ → ℚ) (rng : Rng) (ov : PrefsOverride) (curYear : Int)
    (movies : List RawMovie) (n : Int) (divParam : Option DivChoice)
    (excl : List Int) : List Movie :=
  if n ≤ 0 then []
  else
    let prefs := getEffectivePrefs ov
    let divBy := divParam.getD prefs.diversifyBy
    let filtered := excludeFilter movies n excl
    match scoreMovies e (toOverride prefs) curYear filtered with
    | [] => []
    | p :: rest =>
      let items := ((p :: rest)).map Prod.fst
      let ss := ((p :: rest)).map Prod.snd
      if (items.length : Int) ≤ n then items
      else
        let st := batchLoop rng n items ss divBy prefs.maxItemsPerGenre
          (2 * items.length) ⟨[], [], [], List.range items.length, 0⟩
        let chosenF := if (st.chosen.length : Int) < n then padFill n items st.chosen else st.chosen
        chosenF.take n.toNat

/-- Invariant of the recommend_batch selection loop: the index pool has
no duplicates and stays inside items; the chosen movies come from items,
their ids are pairwise distinct, no pooled index points at an
already-chosen id, and at most n movies are chosen. -/
def BatchInv (n : Int) (items : List Movie) (st : BState) : Prop :=
  st.idxPool.Nodup
  ∧ (∀ j ∈ st.idxPool, j < items.length)
  ∧ (st.chosen.map Movie.mid).Nodup
  ∧ (∀ x ∈ st.chosen, x ∈ items)
  ∧ (∀ j ∈ st.idxPool, (items.getD j dummyMovie).mid ∉ st.chosen.map Movie.mid)
  ∧ ((st.chosen.length : Int) ≤ n)

/-! ## Theorems -/

theorem keyMem_iff (k : Int ⊕ String) (seen : List (Int ⊕ String)) :
    keyMem k seen = true ↔ k ∈ seen := by
  simp [keyMem]

theorem dedupGo_sublist (l : List AggRec) :
    ∀ seen, List.Sublist (dedupGo seen l) l := by
  induction l with
  | nil => intro seen; simp [dedupGo]
  | cons r rest ih =>
    intro seen
    simp only [dedupGo]
    by_cases h : keyMem (aggKey r) seen
    · simp [h]; exact (ih seen).cons r
    · simp [h]; exact ih (aggKey r :: seen)

theorem dedupGo_not_seen (l : List AggRec) :
    ∀ seen, ∀ r ∈ dedupGo seen l, aggKey r ∉ seen := by
  induction l with
  | nil => intro seen r hr; simp [dedupGo] at hr
  | cons r0 rest ih =>
    intro seen r hr
    simp only [dedupGo] at hr
    by_cases h : keyMem (aggKey r0) seen
    · rw [if_pos h] at hr; exact ih seen r hr
    · rw [if_neg h] at hr
      rcases List.mem_cons.1 hr with h1 | h1
      · subst h1
        intro hc
        exact h ((keyMem_iff _ _).2 hc)
      · intro hc
        exact ih (aggKey r0 :: seen) r h1 (List.mem_cons_of_mem _ hc)

theorem dedupGo_nodup (l : List AggRec) :
    ∀ seen, ((dedupGo seen l).map aggKey).Nodup := by
  induction l with
  | nil => intro seen; simp [dedupGo]
  | cons r0 rest ih =>
    intro seen
    simp only [dedupGo]
    by_cases h : keyMem (aggKey r0) seen
    · rw [if_pos h]; exact ih seen
    · rw [if_neg h]
      simp only [List.map_cons, List.nodup_cons]
      constructor
      · intro hc
        rcases List.mem_map.1 hc with ⟨x, hx, hk⟩
        have := dedupGo_not_seen rest (aggKey r0 :: seen) x hx
        exact this (hk ▸ List.mem_cons_self _ _)
      · exact ih (aggKey r0 :: seen)

theorem dedupGo_covers (l : List AggRec) :
    ∀ seen, ∀ r ∈ l, aggKey r ∈ seen ∨ aggKey r ∈ (dedupGo seen l).map aggKey := by
  induction l with
  | nil => intro seen r hr; simp at hr
  | cons r0 rest ih =>
    intro seen r hr
    simp only [dedupGo]
    rcases List.mem_cons.1 hr with h1 | h1
    · subst h1
      by_cases h : keyMem (aggKey r) seen
      · exact Or.inl ((keyMem_iff _ _).1 h)
      · rw [if_neg h]
        exact Or.inr (by simp)
    · by_cases h : keyMem (aggKey r0) seen
      · rw [if_pos h]; exact ih seen r h1
      · rw [if_neg h]
        rcases ih (aggKey r0 :: seen) r h1 with h2 | h2
        · rcases List.mem_cons.1 h2 with h3 | h3
          · exact Or.inr (by simp [h3])
          · exact Or.inl h3
        · exact Or.inr (by simp [h2])

theorem dedupGo_first (l : List AggRec) :
    ∀ seen, ∀ r ∈ dedupGo seen l,
      ∃ pre post, l = pre ++ r :: post ∧ ∀ p ∈ pre, aggKey p ≠ aggKey r := by
  induction l with
  | nil => intro seen r hr; simp [dedupGo] at hr
  | cons r0 rest ih =>
    intro seen r hr
    simp only [dedupGo] at hr
    by_cases h : keyMem (aggKey r0) seen
    · rw [if_pos h] at hr
      rcases ih seen r hr with ⟨pre, post, heq, hpre⟩
      refine ⟨r0 :: pre, post, by simp [heq], ?_⟩
      intro p hp
      rcases List.mem_cons.1 hp with h1 | h1
      · subst h1
        intro hc
        have hs := dedupGo_not_seen rest seen r hr
        exact hs (hc ▸ (keyMem_iff _ _).1 h)
      · exact hpre p h1
    · rw [if_neg h] at hr
      rcases List.mem_cons.1 hr with h1 | h1
      · subst h1
        exact ⟨[], rest, rfl, by simp⟩
      · rcases ih (aggKey r0 :: seen) r h1 with ⟨pre, post, heq, hpre⟩
        refine ⟨r0 :: pre, post, by simp [heq], ?_⟩
        intro p hp
        rcases List.mem_cons.1 hp with h2 | h2
        · subst h2
          intro hc
          have hs := dedupGo_not_seen rest (aggKey p :: seen) r h1
          exact hs (by simp [hc])
        · exact hpre p h2

/-- Claim C5: for every merged aggregation input, the dedup pass of
load_or_fetch keeps exactly one record per distinct key (id, or the
title-plus-release-date fallback when the id is absent): the output is a
subsequence of the input (hence in first-seen order), its keys are
pairwise distinct, every input key is represented, and each surviving
record is the first input record bearing its key. -/
theorem claim_C5 (l : List AggRec) :
    List.Sublist (dedupMovies l) l
    ∧ ((dedupMovies l).map aggKey).Nodup
    ∧ (∀ r ∈ l, aggKey r ∈ (dedupMovies l).map aggKey)
    ∧ (∀ r ∈ dedupMovies l,
        ∃ pre post, l = pre ++ r :: post ∧ ∀ p ∈ pre, aggKey p ≠ aggKey r) := by
  refine ⟨dedupGo_sublist l [], dedupGo_nodup l [], ?_, dedupGo_first l []⟩
  intro r hr
  rcases dedupGo_covers l [] r hr with h | h
  · simp at h
  · exact h

/-- Witness for C5 at a concrete input with a duplicated id: the duplicate
is dropped, the first occurrence and its order survive. -/
theorem claim_C5_witness :
    dedupMovies
        [⟨some 1, some "A", some "2020"⟩, ⟨some 1, some "A2", some "2021"⟩,
          ⟨some 2, some "B", some "2022"⟩] =
      [⟨some 1, some "A", some "2020"⟩, ⟨some 2, some "B", some "2022"⟩]
    ∧ ((dedupMovies
        [⟨some 1, some "A", some "2020"⟩, ⟨some 1, some "A2", some "2021"⟩,
          ⟨some 2, some "B", some "2022"⟩]).map aggKey).Nodup := by
  constructor
  · rfl
  · exact (claim_C5 _).2.1

/-- Claim C8: cache round trip.  Saving a payload for a query and loading
it back with ttl 3600 while the age is within the ttl returns exactly the
stored payload. -/
theorem claim_C8 (fs : List (String × CacheFile)) (params : List (String × String))
    (payload : Jx) (t₁ t₂ : ℚ) (h : t₂ - t₁ ≤ 3600) :
    loadJsonForQuery (saveJsonForQuery fs params payload t₁) params (some 3600) t₂ =
      some payload := by
  simp only [loadJsonForQuery, saveJsonForQuery, fsFind, if_pos rfl, isCacheExpired]
  have h1 : ¬ ((3600 : Int) : ℚ) < t₂ - t₁ := by
    push_cast
    linarith
  simp [h1]
  linarith

/-- Witness for C8: a concrete immediate round trip. -/
theorem claim_C8_witness :
    loadJsonForQuery
        (saveJsonForQuery [] [("page", "1")] (Jx.num 7) 1000)
        [("page", "1")] (some 3600) 1000 = some (Jx.num 7) :=
  claim_C8 [] [("page", "1")] (Jx.num 7) 1000 1000 (by norm_num)

/-- Claim C10: a negative ttl skips the expiry check entirely, so the
stored payload is returned no matter how old the entry is; only a
nonnegative ttl is ever compared against the file age. -/
theorem claim_C10 (fs : List (String × CacheFile)) (params : List (String × String))
    (t : Int) (ht : t < 0) (now : ℚ) (f : CacheFile)
    (hf : fsFind fs (canonicalKey params) = some f) :
    loadJsonForQuery fs params (some t) now = some f.payload := by
  simp only [loadJsonForQuery, hf]
  rw [if_neg (by omega)]

/-- Witness for C10: ttl -1 returns a 10-billion-seconds-old entry. -/
theorem claim_C10_witness :
    loadJsonForQuery [(canonicalKey [("page", "1")], ⟨Jx.str "old", 0⟩)]
        [("page", "1")] (some (-1)) 10000000000 = some (Jx.str "old") :=
  claim_C10 [(canonicalKey [("page", "1")], ⟨Jx.str "old", 0⟩)] [("page", "1")]
    (-1) (by norm_num) 10000000000 ⟨Jx.str "old", 0⟩ (by simp [fsFind])

/-- Claim C2 counterexample: with the default configuration
raise_on_failure = true (env API_CLIENT_RAISE_ON_FAILURE unset reads "1"),
a request whose every attempt returns HTTP 503 with max_retries = 2 makes
3 attempts and then RAISES ApiError instead of returning a failure
result, contradicting the claim as stated. -/
theorem claim_C2_counterexample :
    isErrorResult
        (performRequestManual (fun _ => AttemptOutcome.resp 503 none) (fun _ => 0)
          2 (1 / 2) 60 true).result = true
    ∧ (performRequestManual (fun _ => AttemptOutcome.resp 503 none) (fun _ => 0)
          2 (1 / 2) 60 true).attempts = 3 :=
  ⟨rfl, rfl⟩

/-- Claim C2, amended: with raise_on_failure = false, a request whose
every attempt returns HTTP 503 and max_retries = 2 makes exactly 3 total
attempts (1 initial + 2 retries, retries metric 2) and then returns the
failure dict with success false and status 503 without raising. -/
theorem claim_C2 (script : Nat → AttemptOutcome) (u : Nat → ℚ) (base maxb : ℚ)
    (h : ∀ k, ∃ ra, script k = AttemptOutcome.resp 503 ra) :
    (performRequestManual script u 2 base maxb false).result =
        Except.ok ⟨false, some 503⟩
    ∧ (performRequestManual script u 2 base maxb false).attempts = 3
    ∧ (performRequestManual script u 2 base maxb false).retries = 2 := by
  obtain ⟨ra1, h1⟩ := h 1
  obtain ⟨ra2, h2⟩ := h 2
  obtain ⟨ra3, h3⟩ := h 3
  have hmax : max 1 (2 + 1) = 3 := rfl
  refine ⟨?_, ?_, ?_⟩ <;>
    simp [performRequestManual, performGo, h1, h2, h3, hmax]

/-- Witness for C2 at the concrete all-503 script. -/
theorem claim_C2_witness :
    (performRequestManual (fun _ => AttemptOutcome.resp 503 none) (fun _ => 0)
        2 (1 / 2) 60 false).result = Except.ok ⟨false, some 503⟩
    ∧ (performRequestManual (fun _ => AttemptOutcome.resp 503 none) (fun _ => 0)
        2 (1 / 2) 60 false).attempts = 3 := by
  have h := claim_C2 (fun _ => AttemptOutcome.resp 503 none) (fun _ => 0) (1 / 2) 60
    (fun _ => ⟨none, rfl⟩)
  exact ⟨h.1, h.2.1⟩

/-- Claim C7 counterexample: a positive Retry-After duration is NOT used
as given; it is capped at max_backoff.  With max_backoff = 60 and
Retry-After 100 the sleep is 60, not 100. -/
theorem claim_C7_counterexample :
    computeSleep (1 / 2) 60 1 (some 100) 0 = 60 ∧ (60 : ℚ) ≠ 100 := by
  constructor
  · simp only [computeSleep]
    norm_num
  · norm_num

/-- Claim C7, amended: before the k-th retried attempt, absent a usable
Retry-After header the sleep delay equals the computed backoff
min(max_backoff, backoff_base * 2 ^ (k - 1)) plus a nonnegative random
jitter of at most 20 percent of that computed backoff; when the server
supplies a positive Retry-After duration, min(max_backoff, retry_after)
is used instead (no jitter); and in an all-503 run the recorded sleeps
are exactly these computed values. -/
theorem claim_C7 (base maxb : ℚ) (k : Nat) (u : ℚ)
    (hb : 0 ≤ base) (hm : 0 ≤ maxb) (hu0 : 0 ≤ u) (hu1 : u ≤ 1) :
    (∃ j, computeSleep base maxb k none u =
        min maxb (base * 2 ^ (k - 1)) + j
      ∧ 0 ≤ j ∧ j ≤ (1 / 5) * min maxb (base * 2 ^ (k - 1)))
    ∧ (∀ ra : Int, 0 < ra →
        computeSleep base maxb k (some ra) u = min maxb (ra : ℚ))
    ∧ (∀ v : Nat → ℚ,
        (performRequestManual (fun _ => AttemptOutcome.resp 503 none) v 2 base maxb false).sleeps
          = [computeSleep base maxb 1 none (v 1), computeSleep base maxb 2 none (v 2)]) := by
  have hpos : (0 : ℚ) ≤ min maxb (base * 2 ^ (k - 1)) := by
    have : (0 : ℚ) ≤ base * 2 ^ (k - 1) := by positivity
    exact le_min hm this
  refine ⟨⟨u * (min maxb (base * 2 ^ (k - 1)) * (1 / 5)), ?_, ?_, ?_⟩, ?_, ?_⟩
  · simp [computeSleep, computeBackoff]
  · positivity
  · calc u * (min maxb (base * 2 ^ (k - 1)) * (1 / 5))
        ≤ 1 * (min maxb (base * 2 ^ (k - 1)) * (1 / 5)) := by
          apply mul_le_mul_of_nonneg_right hu1
          positivity
      _ = (1 / 5) * min maxb (base * 2 ^ (k - 1)) := by ring
  · intro ra hra
    simp [computeSleep, hra]
  · intro v
    simp [performRequestManual, performGo]

/-- Witness for C7 at concrete backoff parameters. -/
theorem claim_C7_witness :
    (∃ j, computeSleep (1 / 2) 60 1 none (1 / 2) =
        min 60 ((1 / 2) * 2 ^ (1 - 1)) + j
      ∧ 0 ≤ j ∧ j ≤ (1 / 5) * min 60 ((1 / 2) * 2 ^ (1 - 1)))
    ∧ computeSleep (1 / 2) 60 1 (some 7) (1 / 2) = min 60 7 := by
  have h := claim_C7 (1 / 2) 60 1 (1 / 2) (by norm_num) (by norm_num)
    (by norm_num) (by norm_num)
  refine ⟨h.1, ?_⟩
  have h2 := h.2.1 7 (by norm_num)
  simpa using h2

theorem normalizeQ_eq_map (l : List ℚ) : ∃ f : ℚ → ℚ, normalizeQ l = l.map f := by
  cases l with
  | nil => exact ⟨id, rfl⟩
  | cons v vs =>
    simp only [normalizeQ]
    by_cases h : vs.foldl max v ≤ vs.foldl min v
    · exact ⟨fun _ => 1, by rw [if_pos h]⟩
    · exact ⟨fun x => (x - vs.foldl min v) / (vs.foldl max v - vs.foldl min v),
        by rw [if_neg h]⟩

/-- Claim C1 counterexample: in score_movies a candidate with absent
vote_average enters the rating signal as the raw value 0.0: next to a
candidate rated 8.0 its normalized rating signal is 0, not the neutral
midpoint 0.5, and the signals are identical to those of a true zero
rating. -/
theorem claim_C1_counterexample :
    ratingSignals
        [⟨some 1, some "A", none, none, none, none, none, some 8, none, none, none, []⟩,
          ⟨some 2, some "B", none, none, none, none, none, none, none, none, none, []⟩]
      = [1, 0]
    ∧ ratingSignals
        [⟨some 1, some "A", none, none, none, none, none, some 8, none, none, none, []⟩,
          ⟨some 2, some "B", none, none, none, none, none, some 0, none, none, none, []⟩]
      = [1, 0]
    ∧ ¬ ((0 : ℚ) = 1 / 2) := by
  have hfc : filteredCandidates
      [⟨some 1, some "A", none, none, none, none, none, some 8, none, none, none, []⟩,
        ⟨some 2, some "B", none, none, none, none, none, none, none, none, none, []⟩]
      = [⟨1, "A", "", "", some 8, 0, 0, false, []⟩, ⟨2, "B", "", "", none, 0, 0, false, []⟩] := by
    decide
  have hfc0 : filteredCandidates
      [⟨some 1, some "A", none, none, none, none, none, some 8, none, none, none, []⟩,
        ⟨some 2, some "B", none, none, none, none, none, some 0, none, none, none, []⟩]
      = [⟨1, "A", "", "", some 8, 0, 0, false, []⟩, ⟨2, "B", "", "", some 0, 0, 0, false, []⟩] := by
    decide
  refine ⟨?_, ?_, by norm_num⟩
  · rw [ratingSignals, hfc]
    norm_num [normalizeQ, min_def, max_def]
  · rw [ratingSignals, hfc0]
    norm_num [normalizeQ, min_def, max_def]

/-- Claim C1, amended: an absent vote_average is treated by score_movies
as the raw rating 0.0, so its normalized rating signal always coincides
with that of a candidate whose vote_average is exactly 0. -/
theorem claim_C1 (movies : List RawMovie) (i j : Nat) (mi mj : Movie)
    (hi : (filteredCandidates movies).get? i = some mi)
    (hj : (filteredCandidates movies).get? j = some mj)
    (hvi : mi.vote_average = none) (hvj : mj.vote_average = some 0) :
    (ratingSignals movies).get? i = (ratingSignals movies).get? j := by
  obtain ⟨f, hf⟩ :=
    normalizeQ_eq_map ((filteredCandidates movies).map (fun m => m.vote_average.getD 0))
  rw [ratingSignals, hf, List.map_map, List.get?_map, List.get?_map, hi, hj]
  simp [hvi, hvj]

/-- Witness for C1: the two candidates of the counterexample lists. -/
theorem claim_C1_witness :
    (ratingSignals
        [⟨some 1, some "B", none, none, none, none, none, none, none, none, none, []⟩,
          ⟨some 2, some "Z", none, none, none, none, none, some 0, none, none, none, []⟩]).get? 0
      = (ratingSignals
        [⟨some 1, some "B", none, none, none, none, none, none, none, none, none, []⟩,
          ⟨some 2, some "Z", none, none, none, none, none, some 0, none, none, none, []⟩]).get? 1 := by
  apply claim_C1 _ 0 1 ⟨1, "B", "", "", none, 0, 0, false, []⟩ ⟨2, "Z", "", "", some 0, 0, 0, false, []⟩
  · have : filteredCandidates
        [⟨some 1, some "B", none, none, none, none, none, none, none, none, none, []⟩,
          ⟨some 2, some "Z", none, none, none, none, none, some 0, none, none, none, []⟩]
        = [⟨1, "B", "", "", none, 0, 0, false, []⟩, ⟨2, "Z", "", "", some 0, 0, 0, false, []⟩] := by
      decide
    rw [this]; rfl
  · have : filteredCandidates
        [⟨some 1, some "B", none, none, none, none, none, none, none, none, none, []⟩,
          ⟨some 2, some "Z", none, none, none, none, none, some 0, none, none, none, []⟩]
        = [⟨1, "B", "", "", none, 0, 0, false, []⟩, ⟨2, "Z", "", "", some 0, 0, 0, false, []⟩] := by
      decide
    rw [this]; rfl
  · rfl
  · rfl

/-- Claim C3 counterexample: caller weights popularity 1.0, rating 0.5,
freshness 0.5 (sum 2) are clamped and divided by their sum before use, so
the base scores differ from the spec formula that uses the caller weights
unscaled. -/
theorem claim_C3_counterexample :
    (baseScored (fun _ => 0)
        { wPop := some 1, wRat := some (1 / 2), wFre := some (1 / 2),
          temperature := none, temporalBalance := none, tbStrength := none,
          diversifyBy := none, maxItemsPerGenre := none } 2025
        [⟨some 1, some "P", none, none, none, none, none, some 0, none, some 10, none, []⟩,
          ⟨some 2, some "Q", none, none, none, none, none, some 10, none, none, none, []⟩]).map Prod.snd
      = [3 / 4, 1 / 2]
    ∧ (specBaseScores (fun _ => 0) 1 (1 / 2) (1 / 2) 2025
        [⟨some 1, some "P", none, none, none, none, none, some 0, none, some 10, none, []⟩,
          ⟨some 2, some "Q", none, none, none, none, none, some 10, none, none, none, []⟩]).map Prod.snd
      = [3 / 2, 1]
    ∧ ([3 / 4, 1 / 2] : List ℚ) ≠ [3 / 2, 1] := by
  have hfc : filteredCandidates
      [⟨some 1, some "P", none, none, none, none, none, some 0, none, some 10, none, []⟩,
        ⟨some 2, some "Q", none, none, none, none, none, some 10, none, none, none, []⟩]
      = [⟨1, "P", "", "", some 0, 0, 10, false, []⟩, ⟨2, "Q", "", "", some 10, 0, 0, false, []⟩] := by
    decide
  have hpop : popSignals
      [⟨some 1, some "P", none, none, none, none, none, some 0, none, some 10, none, []⟩,
        ⟨some 2, some "Q", none, none, none, none, none, some 10, none, none, none, []⟩] = [1, 0] := by
    rw [popSignals, hfc]
    norm_num [normalizeQ, min_def, max_def]
  have hrat : ratingSignals
      [⟨some 1, some "P", none, none, none, none, none, some 0, none, some 10, none, []⟩,
        ⟨some 2, some "Q", none, none, none, none, none, some 10, none, none, none, []⟩] = [0, 1] := by
    rw [ratingSignals, hfc]
    norm_num [normalizeQ, min_def, max_def]
  have hrec : recSignals (fun _ => 0) 2025
      [⟨some 1, some "P", none, none, none, none, none, some 0, none, some 10, none, []⟩,
        ⟨some 2, some "Q", none, none, none, none, none, some 10, none, none, none, []⟩] = [1, 1] := by
    rw [recSignals, hfc]
    norm_num [normalizeQ, min_def, max_def, recencyScore, parseYear]
  refine ⟨?_, ?_, by norm_num⟩
  · rw [baseScored, hfc, hpop, hrat, hrec]
    norm_num [getEffectivePrefs, validatePrefs, mergeDefaults, clampQ,
      weightedScores, min_def, max_def]
  · rw [specBaseScores, hfc, hpop, hrat, hrec]
    norm_num [weightedScores]

/-- Claim C3, amended: the scorer does re-normalize the caller weights.
The base scores it computes equal the spec formula applied to the caller
weights after clamping each into the unit interval and dividing by their
(positive) sum. -/
theorem claim_C3 (e : ℚ → ℚ) (curYear : Int) (movies : List RawMovie) (wp wr wf : ℚ)
    (h : 0 < clampQ 0 1 wp + clampQ 0 1 wr + clampQ 0 1 wf) :
    baseScored e
        { noOverride with wPop := some wp, wRat := some wr, wFre := some wf }
        curYear movies
      = specBaseScores e
          (clampQ 0 1 wp / (clampQ 0 1 wp + clampQ 0 1 wr + clampQ 0 1 wf))
          (clampQ 0 1 wr / (clampQ 0 1 wp + clampQ 0 1 wr + clampQ 0 1 wf))
          (clampQ 0 1 wf / (clampQ 0 1 wp + clampQ 0 1 wr + clampQ 0 1 wf))
          curYear movies := by
  simp [baseScored, specBaseScores, getEffectivePrefs, validatePrefs, mergeDefaults,
    noOverride, h]

/-- Witness for C3 at caller weights summing to 2. -/
theorem claim_C3_witness :
    (0 : ℚ) < clampQ 0 1 1 + clampQ 0 1 (1 / 2) + clampQ 0 1 (1 / 2)
    ∧ baseScored (fun _ => 0)
        { noOverride with wPop := some 1, wRat := some (1 / 2), wFre := some (1 / 2) }
        2025
        [⟨some 1, some "P", none, none, none, none, none, some 0, none, some 10, none, []⟩]
      = specBaseScores (fun _ => 0)
          (clampQ 0 1 1 / (clampQ 0 1 1 + clampQ 0 1 (1 / 2) + clampQ 0 1 (1 / 2)))
          (clampQ 0 1 (1 / 2) / (clampQ 0 1 1 + clampQ 0 1 (1 / 2) + clampQ 0 1 (1 / 2)))
          (clampQ 0 1 (1 / 2) / (clampQ 0 1 1 + clampQ 0 1 (1 / 2) + clampQ 0 1 (1 / 2)))
          2025
          [⟨some 1, some "P", none, none, none, none, none, some 0, none, some 10, none, []⟩] :=
  ⟨by norm_num [clampQ],
    claim_C3 (fun _ => 0) 2025
      [⟨some 1, some "P", none, none, none, none, none, some 0, none, some 10, none, []⟩]
      1 (1 / 2) (1 / 2) (by norm_num [clampQ])⟩

/-- Claim C6: pick_random_movie is deterministic given a seed.  The
generator it draws from is constructed inside the call from the seed
alone (random.Random(seed)); no module-level random state is read, so two
calls with the same non-None seed on the same candidate list and
preferences return the same candidate.  mkRng ranges over every possible
seed-to-generator map, of which the Mersenne Twister is one instance. -/
theorem claim_C6 (mkRng : Int → Rng) (e : ℚ → ℚ) (ov : PrefsOverride)
    (curYear : Int) (movies : List RawMovie) (s₁ s₂ : Int) (h : s₁ = s₂) :
    pickRandomMovie e (mkRng s₁) ov curYear movies
      = pickRandomMovie e (mkRng s₂) ov curYear movies := by
  rw [h]

/-- Witness for C6: two draws with seed 42 on a concrete list agree. -/
theorem claim_C6_witness :
    pickRandomMovie (fun _ => 1) (rngOfSeed 42) noOverride 2025
        [⟨some 5, some "M", none, none, none, none, none, none, none, none, none, []⟩]
      = pickRandomMovie (fun _ => 1) (rngOfSeed 42) noOverride 2025
        [⟨some 5, some "M", none, none, none, none, none, none, none, none, none, []⟩] :=
  claim_C6 rngOfSeed (fun _ => 1) noOverride 2025
    [⟨some 5, some "M", none, none, none, none, none, none, none, none, none, []⟩] 42 42 rfl

/-- Claim C9: whenever scoring yields a non-empty list, pick_random_movie
returns some candidate; and whenever in addition the sum of all scores is
not positive, the softmax draw is skipped and the result is the uniform
draw among the first min(10, len) scored candidates (the take-10 prefix
of the score-sorted list). -/
theorem claim_C9 (e : ℚ → ℚ) (rng : Rng) (ov : PrefsOverride) (curYear : Int)
    (movies : List RawMovie) (p : Movie × ℚ) (rest : List (Movie × ℚ))
    (h : pickScored e ov curYear movies = p :: rest) :
    (pickRandomMovie e rng ov curYear movies).isSome = true
    ∧ (((p :: rest).map Prod.snd).foldl (· + ·) 0 ≤ 0 →
        pickRandomMovie e rng ov curYear movies =
          some ((((p :: rest).map Prod.fst).take 10).getD
            (rng.uniformPick (((p :: rest).map Prod.fst).take 10).length %
              (((p :: rest).map Prod.fst).take 10).length) p.1)) := by
  refine ⟨?_, ?_⟩
  · simp only [pickRandomMovie, h]
    by_cases htot : 0 < ((p :: rest).map Prod.snd).foldl (· + ·) 0
    · rw [if_pos htot]; rfl
    · rw [if_neg htot]; rfl
  · intro hle
    simp only [pickRandomMovie, h]
    rw [if_neg (not_lt.mpr hle)]

/-- Witness for C9: with all weights overridden to 0, the single
candidate scores 0, the total is not positive, and the draw still
returns the candidate through the uniform fallback. -/
theorem claim_C9_witness :
    pickScored (fun _ => 1)
        ⟨some 0, some 0, some 0, none, none, none, none, none⟩ 2025
        [⟨some 5, some "M", none, none, none, none, none, none, none, none, none, []⟩]
      = [(⟨5, "M", "", "", none, 0, 0, false, []⟩, (0 : ℚ))]
    ∧ (pickRandomMovie (fun _ => 1) (rngOfSeed 7)
        ⟨some 0, some 0, some 0, none, none, none, none, none⟩ 2025
        [⟨some 5, some "M", none, none, none, none, none, none, none, none, none, []⟩]).isSome = true := by
  have hfc : filteredCandidates
      [⟨some 5, some "M", none, none, none, none, none, none, none, none, none, []⟩]
      = [⟨5, "M", "", "", none, 0, 0, false, []⟩] := by decide
  have heff : getEffectivePrefs ⟨some 0, some 0, some 0, none, none, none, none, none⟩
      = ⟨0, 0, 0, 3, true, 3 / 2, DivChoice.genre, 2⟩ := by
    norm_num [getEffectivePrefs, validatePrefs, mergeDefaults, clampQ, min_def, max_def]
  have heff2 : getEffectivePrefs (toOverride (getEffectivePrefs
      ⟨some 0, some 0, some 0, none, none, none, none, none⟩))
      = ⟨0, 0, 0, 3, true, 3 / 2, DivChoice.genre, 2⟩ := by
    rw [heff]
    norm_num [getEffectivePrefs, validatePrefs, mergeDefaults, toOverride, clampQ,
      min_def, max_def]
  have hpop : popSignals
      [⟨some 5, some "M", none, none, none, none, none, none, none, none, none, []⟩] = [1] := by
    simp only [popSignals, hfc]
    norm_num [normalizeQ]
  have hrat : ratingSignals
      [⟨some 5, some "M", none, none, none, none, none, none, none, none, none, []⟩] = [1] := by
    simp only [ratingSignals, hfc]
    norm_num [normalizeQ]
  have hrec : recSignals (fun _ => 1) 2025
      [⟨some 5, some "M", none, none, none, none, none, none, none, none, none, []⟩] = [1] := by
    simp only [recSignals, hfc]
    norm_num [normalizeQ, recencyScore, parseYear]
  have hbase : baseScored (fun _ => 1) (toOverride (getEffectivePrefs
      ⟨some 0, some 0, some 0, none, none, none, none, none⟩)) 2025
      [⟨some 5, some "M", none, none, none, none, none, none, none, none, none, []⟩]
      = [(⟨5, "M", "", "", none, 0, 0, false, []⟩, (0 : ℚ))] := by
    simp only [baseScored, heff2, hfc, hpop, hrat, hrec]
    norm_num [weightedScores]
  have hscored : pickScored (fun _ => 1)
      ⟨some 0, some 0, some 0, none, none, none, none, none⟩ 2025
      [⟨some 5, some "M", none, none, none, none, none, none, none, none, none, []⟩]
      = [(⟨5, "M", "", "", none, 0, 0, false, []⟩, (0 : ℚ))] := by
    simp only [pickScored, scoreMovies, heff2, hfc, hbase]
    norm_num [temporalAdjust, yearCnt, yearKey, strTake, sortBy, insertBy]
  exact ⟨hscored,
    (claim_C9 (fun _ => 1) (rngOfSeed 7)
      ⟨some 0, some 0, some 0, none, none, none, none, none⟩ 2025
      [⟨some 5, some "M", none, none, none, none, none, none, none, none, none, []⟩]
      (⟨5, "M", "", "", none, 0, 0, false, []⟩, (0 : ℚ)) [] hscored).1⟩

theorem sanitizeGo_ids (l : List RawMovie) :
    ∀ seen, ((sanitizeGo seen l).map Movie.mid).Nodup
      ∧ ∀ m ∈ sanitizeGo seen l, m.mid ∉ seen := by
  induction l with
  | nil => intro seen; simp [sanitizeGo]
  | cons item rest ih =>
    intro seen
    match hmid : item.mid with
    | none =>
      simp only [sanitizeGo, hmid]
      exact ih seen
    | some mid =>
      simp only [sanitizeGo, hmid]
      by_cases h : mid ∈ seen
      · rw [if_pos h]; exact ih seen
      · rw [if_neg h]
        obtain ⟨ihn, ihs⟩ := ih (mid :: seen)
        refine ⟨?_, ?_⟩
        · simp only [List.map_cons, List.nodup_cons]
          refine ⟨?_, ihn⟩
          intro hc
          rcases List.mem_map.1 hc with ⟨x, hx, hk⟩
          exact ihs x hx (by simp [hk])
        · intro m hm
          rcases List.mem_cons.1 hm with h1 | h1
          · subst h1; exact h
          · intro hc
            exact ihs m h1 (List.mem_cons_of_mem _ hc)

theorem filteredCandidates_ids (movies : List RawMovie) :
    ((filteredCandidates movies).map Movie.mid).Nodup := by
  have hsub : List.Sublist (filteredCandidates movies) (sanitizeMovies movies) :=
    List.filter_sublist _
  exact (sanitizeGo_ids movies []).1.sublist (hsub.map Movie.mid)

theorem normalizeQ_length (l : List ℚ) : (normalizeQ l).length = l.length := by
  cases l with
  | nil => rfl
  | cons v vs =>
    simp only [normalizeQ]
    by_cases h : vs.foldl max v ≤ vs.foldl min v
    · rw [if_pos h]; simp
    · rw [if_neg h]; simp

theorem weightedScores_fst (wP wR wF : ℚ) :
    ∀ (ms : List Movie) (ps rs cs : List ℚ),
      ms.length ≤ ps.length → ms.length ≤ rs.length → ms.length ≤ cs.length →
      (weightedScores wP wR wF ms ps rs cs).map Prod.fst = ms := by
  intro ms
  induction ms with
  | nil => intro ps rs cs _ _ _; cases ps <;> cases rs <;> cases cs <;> rfl
  | cons m ms ih =>
    intro ps rs cs hp hr hc
    cases ps with
    | nil => simp at hp
    | cons p ps =>
      cases rs with
      | nil => simp at hr
      | cons r rs =>
        cases cs with
        | nil => simp at hc
        | cons c cs =>
          simp only [weightedScores, List.map_cons]
          rw [ih ps rs cs (by simpa using hp) (by simpa using hr) (by simpa using hc)]

theorem temporalAdjust_fst (prefs : EffPrefs) (scored : List (Movie × ℚ)) :
    (temporalAdjust prefs scored).map Prod.fst = scored.map Prod.fst := by
  by_cases h : prefs.temporalBalance = false
  · simp [temporalAdjust, h]
  · cases scored with
    | nil => simp [temporalAdjust, h]
    | cons p rest => simp [temporalAdjust, h]

theorem insertBy_perm (le : α → α → Bool) (x : α) (l : List α) :
    List.Perm (insertBy le x l) (x :: l) := by
  induction l with
  | nil => simp [insertBy]
  | cons y ys ih =>
    simp only [insertBy]
    by_cases h : le x y
    · rw [if_pos h]
    · rw [if_neg h]
      exact (ih.cons y).trans (List.Perm.swap x y ys)

theorem sortBy_perm (le : α → α → Bool) (l : List α) :
    List.Perm (sortBy le l) l := by
  induction l with
  | nil => simp [sortBy]
  | cons x xs ih =>
    exact (insertBy_perm le x (sortBy le xs)).trans (ih.cons x)

theorem baseScored_fst (e : ℚ → ℚ) (ov : PrefsOverride) (curYear : Int)
    (movies : List RawMovie) :
    (baseScored e ov curYear movies).map Prod.fst = filteredCandidates movies := by
  rw [baseScored]
  apply weightedScores_fst
  · rw [popSignals, normalizeQ_length, List.length_map]
  · rw [ratingSignals, normalizeQ_length, List.length_map]
  · rw [recSignals, normalizeQ_length, List.length_map]

theorem scoreMovies_fst_perm (e : ℚ → ℚ) (ov : PrefsOverride) (curYear : Int)
    (movies : List RawMovie) :
    List.Perm ((scoreMovies e ov curYear movies).map Prod.fst) (filteredCandidates movies) := by
  rw [scoreMovies]
  by_cases h : (filteredCandidates movies).isEmpty
  · rw [if_pos h]
    rw [List.isEmpty_iff] at h
    rw [h]
    rfl
  · rw [if_neg h]
    have h1 := (sortBy_perm (fun a b => decide (b.2 ≤ a.2))
      (temporalAdjust (getEffectivePrefs ov) (baseScored e ov curYear movies))).map Prod.fst
    rw [temporalAdjust_fst, baseScored_fst] at h1
    exact h1

theorem scoreMovies_ids (e : ℚ → ℚ) (ov : PrefsOverride) (curYear : Int)
    (movies : List RawMovie) :
    (((scoreMovies e ov curYear movies).map Prod.fst).map Movie.mid).Nodup := by
  have hperm := (scoreMovies_fst_perm e ov curYear movies).map Movie.mid
  exact hperm.symm.nodup (filteredCandidates_ids movies)

theorem getD_mem_of_lt {α : Type} (l : List α) (d : α) (j : Nat) (h : j < l.length) :
    l.getD j d ∈ l := by
  rw [List.getD_eq_getElem l d h]
  exact List.getElem_mem h

theorem getD_mid_ne (l : List Movie) (hids : (l.map Movie.mid).Nodup)
    (i j : Nat) (hi : i < l.length) (hj : j < l.length) (hij : i ≠ j) :
    (l.getD i dummyMovie).mid ≠ (l.getD j dummyMovie).mid := by
  rw [List.getD_eq_getElem l dummyMovie hi, List.getD_eq_getElem l dummyMovie hj]
  intro hc
  have hi' : i < (l.map Movie.mid).length := by simpa using hi
  have hj' : j < (l.map Movie.mid).length := by simpa using hj
  have : (l.map Movie.mid)[i] = (l.map Movie.mid)[j] := by
    simpa using hc
  exact hij (hids.getElem_inj_iff.1 this)

theorem inv_step_skip (n : Int) (items : List Movie) (chosen : List Movie)
    (gc gc' : List (Int × Nat)) (yc yc' : List (String × Nat)) (pool : List Nat)
    (att a i : Nat) (hi : i ∈ pool)
    (h : BatchInv n items ⟨chosen, gc, yc, pool, att⟩) :
    BatchInv n items ⟨chosen, gc', yc', pool.erase i, a⟩ := by
  obtain ⟨h1, h2, h3, h4, h5, h6⟩ := h
  exact ⟨h1.erase i,
    fun j hj => h2 j (List.mem_of_mem_erase hj),
    h3, h4,
    fun j hj => h5 j (List.mem_of_mem_erase hj),
    h6⟩

theorem inv_step_append (n : Int) (items : List Movie) (chosen : List Movie)
    (gc gc' : List (Int × Nat)) (yc yc' : List (String × Nat)) (pool : List Nat)
    (att a i : Nat) (hids : (items.map Movie.mid).Nodup)
    (hlen : (chosen.length : Int) < n) (hi : i ∈ pool)
    (h : BatchInv n items ⟨chosen, gc, yc, pool, att⟩) :
    BatchInv n items
      ⟨chosen ++ [items.getD i dummyMovie], gc', yc', pool.erase i, a⟩ := by
  obtain ⟨h1, h2, h3, h4, h5, h6⟩ := h
  have hi_lt : i < items.length := h2 i hi
  have hcand_mem : items.getD i dummyMovie ∈ items :=
    getD_mem_of_lt items dummyMovie i hi_lt
  have hcand_not : (items.getD i dummyMovie).mid ∉ chosen.map Movie.mid := h5 i hi
  refine ⟨h1.erase i,
    fun j hj => h2 j (List.mem_of_mem_erase hj), ?_, ?_, ?_, ?_⟩
  · rw [List.map_append]
    rw [List.nodup_append]
    exact ⟨h3, List.nodup_singleton _, by
      intro x hx hx'
      simp only [List.map_cons, List.map_nil, List.mem_cons, List.not_mem_nil,
        or_false] at hx'
      exact hcand_not (hx' ▸ hx)⟩
  · intro x hx
    rcases List.mem_append.1 hx with hx | hx
    · exact h4 x hx
    · simp only [List.mem_singleton] at hx
      exact hx ▸ hcand_mem
  · intro j hj
    have hj_mem : j ∈ pool := List.mem_of_mem_erase hj
    have hj_ne : j ≠ i := by
      intro hc
      subst hc
      exact (h1.mem_erase_iff.1 hj).1 rfl
    rw [List.map_append]
    intro hc
    rcases List.mem_append.1 hc with hc | hc
    · exact h5 j hj_mem hc
    · simp only [List.map_cons, List.map_nil, List.mem_cons, List.not_mem_nil,
        or_false] at hc
      exact getD_mid_ne items hids j i (h2 j hj_mem) hi_lt hj_ne hc
  · simp only [List.length_append, List.length_singleton]
    push_cast
    omega

theorem batchLoop_inv (rng : Rng) (n : Int) (items : List Movie) (scores : List ℚ)
    (divBy : DivChoice) (mpg : Int) (hids : (items.map Movie.mid).Nodup) :
    ∀ fuel st, BatchInv n items st →
      BatchInv n items (batchLoop rng n items scores divBy mpg fuel st) := by
  intro fuel
  induction fuel with
  | zero => intro st h; exact h
  | succ fuel ih =>
    intro st hst
    obtain ⟨chosen, gc, yc, pool, att⟩ := st
    by_cases hlen : ((chosen.length : Int) < n)
    case neg => simp only [batchLoop, if_neg hlen]; exact hst
    cases pool with
    | nil =>
      simp only [batchLoop, if_pos hlen, List.isEmpty_nil, if_true]
      exact hst
    | cons j0 tl =>
      have hplen : 0 < (j0 :: tl).length := by simp
      have hi_mem : ∀ k : Nat,
          (j0 :: tl).getD (k % (j0 :: tl).length) ((j0 :: tl).headD 0) ∈ j0 :: tl :=
        fun k => getD_mem_of_lt (j0 :: tl) _ _ (Nat.mod_lt _ hplen)
      cases divBy with
      | genre =>
        simp only [batchLoop, if_pos hlen, List.isEmpty_cons, Bool.false_eq_true,
          if_false]
        split
        · exact ih _ (inv_step_skip n items chosen gc gc yc yc (j0 :: tl) att _ _
            (hi_mem _) hst)
        · exact ih _ (inv_step_append n items chosen gc _ yc yc (j0 :: tl) att _ _
            hids hlen (hi_mem _) hst)
      | year =>
        simp only [batchLoop, if_pos hlen, List.isEmpty_cons, Bool.false_eq_true,
          if_false]
        split
        · exact ih _ (inv_step_skip n items chosen gc gc yc yc (j0 :: tl) att _ _
            (hi_mem _) hst)
        · exact ih _ (inv_step_append n items chosen gc gc yc _ (j0 :: tl) att _ _
            hids hlen (hi_mem _) hst)
      | director =>
        simp only [batchLoop, if_pos hlen, List.isEmpty_cons, Bool.false_eq_true,
          if_false]
        exact ih _ (inv_step_append n items chosen gc gc yc yc (j0 :: tl) att _ _
          hids hlen (hi_mem _) hst)
      | nodiv =>
        simp only [batchLoop, if_pos hlen, List.isEmpty_cons, Bool.false_eq_true,
          if_false]
        exact ih _ (inv_step_append n items chosen gc gc yc yc (j0 :: tl) att _ _
          hids hlen (hi_mem _) hst)

theorem length_le_of_nodup_subset {α : Type} [DecidableEq α]
    {l₁ l₂ : List α} (h : l₁.Nodup) (hs : l₁ ⊆ l₂) : l₁.length ≤ l₂.length :=
  (List.subperm_of_subset h hs).length_le

theorem items_le_chosen_add_filter (items chosen : List Movie)
    (hn : items.Nodup) :
    items.length ≤ chosen.length + (items.filter (fun x => decide (x ∉ chosen))).length := by
  have hsplit := List.length_eq_length_filter_add (l := items)
    (fun x => decide (x ∈ chosen))
  have hmem : (items.filter (fun x => decide (x ∈ chosen))).length ≤ chosen.length := by
    apply length_le_of_nodup_subset (hn.filter _)
    intro x hx
    have := List.of_mem_filter hx
    simpa using this
  have hsame : (items.filter (fun x => !(decide (x ∈ chosen)))).length
      = (items.filter (fun x => decide (x ∉ chosen))).length := by
    congr 1
    apply List.filter_congr
    intro x _
    simp
  omega

theorem padFill_mem (n : Int) :
    ∀ (items chosen : List Movie) (x : Movie),
      x ∈ padFill n items chosen → x ∈ chosen ∨ x ∈ items := by
  intro items
  induction items with
  | nil => intro chosen x hx; simp only [padFill] at hx; exact Or.inl hx
  | cons it rest ih =>
    intro chosen x hx
    simp only [padFill] at hx
    by_cases hmem : it ∈ chosen
    · rw [if_pos hmem] at hx
      split at hx
      · exact Or.inl hx
      · rcases ih chosen x hx with h | h
        · exact Or.inl h
        · exact Or.inr (List.mem_cons_of_mem _ h)
    · rw [if_neg hmem] at hx
      split at hx
      · rcases List.mem_append.1 hx with h | h
        · exact Or.inl h
        · simp only [List.mem_singleton] at h
          exact Or.inr (h ▸ List.mem_cons_self _ _)
      · rcases ih (chosen ++ [it]) x hx with h | h
        · rcases List.mem_append.1 h with h' | h'
          · exact Or.inl h'
          · simp only [List.mem_singleton] at h'
            exact Or.inr (h' ▸ List.mem_cons_self _ _)
        · exact Or.inr (List.mem_cons_of_mem _ h)

theorem padFill_nodup (n : Int) :
    ∀ (items chosen : List Movie),
      (items.map Movie.mid).Nodup → (chosen.map Movie.mid).Nodup →
      (∀ x ∈ items, ∀ c ∈ chosen, x.mid = c.mid → x = c) →
      ((padFill n items chosen).map Movie.mid).Nodup := by
  intro items
  induction items with
  | nil => intro chosen _ hc _; simpa [padFill] using hc
  | cons it rest ih =>
    intro chosen hitems hchosen hcross
    have hit_rest : it.mid ∉ rest.map Movie.mid := by
      have := hitems
      simp only [List.map_cons, List.nodup_cons] at this
      exact this.1
    have hrest : (rest.map Movie.mid).Nodup := by
      have := hitems
      simp only [List.map_cons, List.nodup_cons] at this
      exact this.2
    simp only [padFill]
    by_cases hmem : it ∈ chosen
    · rw [if_pos hmem]
      split
      · exact hchosen
      · exact ih chosen hrest hchosen
          (fun x hx c hc => hcross x (List.mem_cons_of_mem _ hx) c hc)
    · rw [if_neg hmem]
      have hnew : ((chosen ++ [it]).map Movie.mid).Nodup := by
        rw [List.map_append, List.nodup_append]
        refine ⟨hchosen, List.nodup_singleton _, ?_⟩
        intro a ha ha'
        simp only [List.map_cons, List.map_nil, List.mem_cons, List.not_mem_nil,
          or_false] at ha'
        rcases List.mem_map.1 ha with ⟨c, hc, hcm⟩
        have : it = c := hcross it (List.mem_cons_self _ _) c hc (ha' ▸ hcm).symm
        exact hmem (this ▸ hc)
      have hcross' : ∀ x ∈ rest, ∀ c ∈ chosen ++ [it], x.mid = c.mid → x = c := by
        intro x hx c hc hxc
        rcases List.mem_append.1 hc with hc' | hc'
        · exact hcross x (List.mem_cons_of_mem _ hx) c hc' hxc
        · simp only [List.mem_singleton] at hc'
          subst hc'
          exact absurd (hxc ▸ List.mem_map_of_mem Movie.mid hx) hit_rest
      split
      · exact hnew
      · exact ih (chosen ++ [it]) hrest hnew hcross'

theorem padFill_length_ge (n : Int) :
    ∀ (items chosen : List Movie), items.Nodup →
      n ≤ (chosen.length : Int) + ((items.filter (fun x => decide (x ∉ chosen))).length : Int) →
      n ≤ ((padFill n items chosen).length : Int) := by
  intro items
  induction items with
  | nil =>
    intro chosen _ h
    simpa [padFill] using h
  | cons it rest ih =>
    intro chosen hnd h
    have hit_rest : it ∉ rest := by
      have := hnd; simp only [List.nodup_cons] at this; exact this.1
    have hrest : rest.Nodup := by
      have := hnd; simp only [List.nodup_cons] at this; exact this.2
    simp only [padFill]
    by_cases hmem : it ∈ chosen
    · rw [if_pos hmem]
      have hfl : (List.filter (fun x => decide (x ∉ chosen)) (it :: rest)).length
          = (List.filter (fun x => decide (x ∉ chosen)) rest).length := by
        simp [List.filter_cons, hmem]
      split
      next hstop => exact hstop
      next =>
        apply ih chosen hrest
        omega
    · rw [if_neg hmem]
      have hfl : (List.filter (fun x => decide (x ∉ chosen)) (it :: rest)).length
          = 1 + (List.filter (fun x => decide (x ∉ chosen)) rest).length := by
        simp [List.filter_cons, hmem]
        omega
      have hsame : (List.filter (fun x => decide (x ∉ chosen ++ [it])) rest).length
          = (List.filter (fun x => decide (x ∉ chosen)) rest).length := by
        congr 1
        apply List.filter_congr
        intro x hx
        have hxne : x ≠ it := fun hc => hit_rest (hc ▸ hx)
        simp [List.mem_append, hxne]
      split
      next hstop => exact hstop
      next =>
        apply ih (chosen ++ [it]) hrest
        simp only [List.length_append, List.length_singleton, hsame]
        push_cast
        push_cast at h
        omega

theorem batch_finish (n : Int) (items : List Movie) (st : BState)
    (hids : (items.map Movie.mid).Nodup) (hinv : BatchInv n items st)
    (hgt : ¬ ((items.length : Int) ≤ n)) :
    (((if (st.chosen.length : Int) < n then padFill n items st.chosen
        else st.chosen).take n.toNat).map Movie.mid).Nodup
    ∧ ((if (st.chosen.length : Int) < n then padFill n items st.chosen
        else st.chosen).take n.toNat).length = n.toNat := by
  obtain ⟨h1, h2, h3, h4, h5, h6⟩ := hinv
  have hcross : ∀ x ∈ items, ∀ c ∈ st.chosen, x.mid = c.mid → x = c := by
    intro x hx c hc heq
    exact List.inj_on_of_nodup_map hids hx (h4 c hc) heq
  by_cases hlt : ((st.chosen.length : Int) < n)
  · rw [if_pos hlt]
    have hnodupP : ((padFill n items st.chosen).map Movie.mid).Nodup :=
      padFill_nodup n items st.chosen hids h3 hcross
    have hlenP : n ≤ ((padFill n items st.chosen).length : Int) := by
      apply padFill_length_ge n items st.chosen hids.of_map
      have hcount := items_le_chosen_add_filter items st.chosen hids.of_map
      push_cast
      push_cast at hgt hlt
      omega
    refine ⟨?_, ?_⟩
    · exact hnodupP.sublist ((List.take_sublist _ _).map Movie.mid)
    · rw [List.length_take]
      omega
  · rw [if_neg hlt]
    have hEq : (st.chosen.length : Int) = n := le_antisymm h6 (not_lt.1 hlt)
    refine ⟨h3.sublist ((List.take_sublist _ _).map Movie.mid), ?_⟩
    rw [List.length_take]
    omega

/-- Claim C4, amended: for every candidate list, every n and every draw
oracle, recommend_batch returns a list of pairwise-distinct ids whose
length is exactly min(n, s) where s is the number of SCORED candidates,
i.e. the number of movies surviving sanitization and the preference
filters of score_movies applied to the exclude-filtered input.  The
original claim measured s on the exclude-filtered input itself, which the
counterexample refutes: scoring-stage filters (e.g. the always-on adult
filter) can shrink the pool below n even when the exclude-filtered input
still holds n distinct candidates. -/
theorem claim_C4 (e : ℚ → ℚ) (rng : Rng) (ov : PrefsOverride) (curYear : Int)
    (movies : List RawMovie) (n : Int) (divParam : Option DivChoice) (excl : List Int) :
    ((recommendBatch e rng ov curYear movies n divParam excl).map Movie.mid).Nodup
    ∧ (recommendBatch e rng ov curYear movies n divParam excl).length
        = min n.toNat
            (scoreMovies e (toOverride (getEffectivePrefs ov)) curYear
              (excludeFilter movies n excl)).length := by
  by_cases hn0 : n ≤ 0
  · simp only [recommendBatch, if_pos hn0]
    refine ⟨by simp, ?_⟩
    simp only [List.length_nil]
    omega
  rcases hscore : scoreMovies e (toOverride (getEffectivePrefs ov)) curYear
      (excludeFilter movies n excl) with _ | ⟨p, rest⟩
  · simp only [recommendBatch, if_neg hn0, hscore]
    simp
  · have hids0 : (((p :: rest).map Prod.fst).map Movie.mid).Nodup := by
      have h := scoreMovies_ids e (toOverride (getEffectivePrefs ov)) curYear
        (excludeFilter movies n excl)
      rw [hscore] at h
      exact h
    simp only [recommendBatch, if_neg hn0, hscore]
    by_cases hle : ((((p :: rest).map Prod.fst).length : Int) ≤ n)
    · rw [if_pos hle]
      refine ⟨hids0, ?_⟩
      have hlen : ((p :: rest).map Prod.fst).length = (p :: rest).length := by simp
      rw [hlen]
      rw [hlen] at hle
      omega
    · rw [if_neg hle]
      have hinit : BatchInv n ((p :: rest).map Prod.fst)
          ⟨[], [], [], List.range ((p :: rest).map Prod.fst).length, 0⟩ := by
        refine ⟨List.nodup_range _, ?_, by simp, by simp, by simp, ?_⟩
        · intro j hj; exact List.mem_range.1 hj
        · simp only [List.length_nil]
          omega
      have hinv := batchLoop_inv rng n ((p :: rest).map Prod.fst)
        ((p :: rest).map Prod.snd)
        (divParam.getD (getEffectivePrefs ov).diversifyBy)
        (getEffectivePrefs ov).maxItemsPerGenre hids0
        (2 * ((p :: rest).map Prod.fst).length) _ hinit
      have hfin := batch_finish n ((p :: rest).map Prod.fst) _ hids0 hinv hle
      refine ⟨hfin.1, ?_⟩
      rw [hfin.2]
      have hlen : ((p :: rest).map Prod.fst).length = (p :: rest).length := by simp
      rw [hlen] at hle
      omega

/-- Claim C4 counterexample: two distinct adult candidates, n = 2, no
exclude filtering: the exclude-filtered input still holds 2 distinct
candidates, yet recommend_batch returns 0 items because score_movies
drops both through the always-on adult filter. -/
theorem claim_C4_counterexample :
    recommendBatch (fun _ => 1) (rngOfSeed 3) noOverride 2025
        [⟨some 1, some "A", none, none, none, none, none, none, none, none, some true, []⟩,
          ⟨some 2, some "B", none, none, none, none, none, none, none, none, some true, []⟩]
        2 (some DivChoice.genre) [] = []
    ∧ (excludeFilter
        [⟨some 1, some "A", none, none, none, none, none, none, none, none, some true, []⟩,
          ⟨some 2, some "B", none, none, none, none, none, none, none, none, some true, []⟩]
        2 []).length = 2
    ∧ ((excludeFilter
        [⟨some 1, some "A", none, none, none, none, none, none, none, none, some true, []⟩,
          ⟨some 2, some "B", none, none, none, none, none, none, none, none, some true, []⟩]
        2 []).map RawMovie.mid).Nodup := by
  refine ⟨?_, by decide, by decide⟩
  have hfc : filteredCandidates
      [⟨some 1, some "A", none, none, none, none, none, none, none, none, some true, []⟩,
        ⟨some 2, some "B", none, none, none, none, none, none, none, none, some true, []⟩] = [] := by
    decide
  have hex : excludeFilter
      [⟨some 1, some "A", none, none, none, none, none, none, none, none, some true, []⟩,
        ⟨some 2, some "B", none, none, none, none, none, none, none, none, some true, []⟩]
      2 []
      = [⟨some 1, some "A", none, none, none, none, none, none, none, none, some true, []⟩,
        ⟨some 2, some "B", none, none, none, none, none, none, none, none, some true, []⟩] := by
    decide
  have hsc : scoreMovies (fun _ => 1)
      (toOverride (getEffectivePrefs noOverride)) 2025
      [⟨some 1, some "A", none, none, none, none, none, none, none, none, some true, []⟩,
        ⟨some 2, some "B", none, none, none, none, none, none, none, none, some true, []⟩] = [] := by
    simp [scoreMovies, hfc]
  simp [recommendBatch, hex, hsc]

end MovieRec
